import Mathlib

namespace Periscope

/-!
# Periscope: verified model of the IDL ingestion pipeline

A shallow embedding of the Periscope crate's IDL handling:

* the binary envelope decoder of `src/idl/fetcher.rs` (`fetch_idl_with_client`,
  steps 3-6), modelled over byte lists;
* the canonical IDL data model of `src/idl/types.rs` and the legacy model of
  `src/idl/legacy.rs`, together with the `From` conversions of `legacy.rs`;
* the serde-derive JSON deserializers of both models (as generated by the
  `#[derive(Deserialize)]` attributes, including `#[serde(untagged)]`,
  `#[serde(tag = "kind")]`, `#[serde(default)]` and field renames);
* the display formatting of `src/display.rs` (`format_type`);
* a canonical-dialect JSON serializer (the crate itself derives no
  `Serialize` for `Idl`; the serializer here is modelled from the spec).

JSON is modelled as a mutual inductive family so that every parser is a
structural recursion (hence computable by kernel reduction).  JSON numbers
are modelled as integers, which covers every number occurring in IDL
documents (byte values, error codes, array sizes).
-/

/-! ## JSON values -/

mutual

/-- A JSON value.  Arrays and objects use the companion list types below so
that recursive functions over JSON are structural. -/
inductive Json where
  | null : Json
  | bool (b : Bool) : Json
  | num (n : Int) : Json
  | str (s : String) : Json
  | arr (xs : JsonList) : Json
  | obj (fs : JsonFields) : Json

/-- A list of JSON values (array elements). -/
inductive JsonList where
  | nil : JsonList
  | cons (hd : Json) (tl : JsonList) : JsonList

/-- An ordered association list of JSON object members. -/
inductive JsonFields where
  | nil : JsonFields
  | cons (key : String) (val : Json) (tl : JsonFields) : JsonFields

end

/-- Build a `JsonList` from an ordinary list. -/
def JsonList.ofList : List Json → JsonList
  | [] => .nil
  | x :: xs => .cons x (JsonList.ofList xs)

/-- Build `JsonFields` from an ordinary association list. -/
def JsonFields.ofList : List (String × Json) → JsonFields
  | [] => .nil
  | (k, v) :: xs => .cons k v (JsonFields.ofList xs)

/-- Array literal helper. -/
def Json.mkArr (xs : List Json) : Json := .arr (JsonList.ofList xs)

/-- Object literal helper. -/
def Json.mkObj (fs : List (String × Json)) : Json := .obj (JsonFields.ofList fs)

/-- First value bound to `key`, as serde's map visitor sees it. -/
def JsonFields.lookup (key : String) : JsonFields → Option Json
  | .nil => none
  | .cons k v tl => if k = key then some v else JsonFields.lookup key tl

/-! ## Errors (src/error.rs)

Only the constructors exercised by the modelled code paths are carried. -/

/-- Error type mirroring `PeriscopeError` in `src/error.rs`. -/
inductive PeriscopeError where
  | IdlNotFound (program : String)
  | DecompressionError (msg : String)
  | ParseError (msg : String)
  | InvalidProgramId (msg : String)
  | NetworkError (msg : String)
  | HttpError (status : Nat) (url : String)

deriving DecidableEq

/-- The error returned when the account data is shorter than the 44-byte
header (`fetch_idl_with_client`, step 3): the spec's EnvelopeTooSmall. -/
def envelopeTooSmall : PeriscopeError :=
  .DecompressionError "Account data too small for IDL header"

/-- The error returned when the length field is zero
(`fetch_idl_with_client`, step 5): the spec's EmptyPayload. -/
def emptyPayload : PeriscopeError :=
  .DecompressionError "IDL compressed data is empty"

/-- The error returned when the declared length exceeds the remaining bytes
(`fetch_idl_with_client`, step 6): the spec's PayloadTruncated, carrying the
expected and actual byte counts in its message. -/
def payloadTruncated (expected actual : Nat) : PeriscopeError :=
  .DecompressionError
    ("Compressed data truncated: expected " ++ toString expected ++
      " bytes, got " ++ toString actual)

/-! ## Binary envelope decoder (src/idl/fetcher.rs, steps 3-6) -/

/-- `HEADER_SIZE` in `fetcher.rs`: 8-byte discriminator + 32-byte authority +
4-byte length field. -/
def headerSize : Nat := 44

/-- The little-endian u32 at bytes 40..44, as read by
`u32::from_le_bytes(data[40..44])`.  Bytes are naturals below 256. -/
def dataLenOf (data : List Nat) : Nat :=
  data.getD 40 0 + 256 * data.getD 41 0 + 65536 * data.getD 42 0 +
    16777216 * data.getD 43 0

/-- Steps 3-6 of `fetch_idl_with_client`: validate the header and return the
compressed payload slice `data[44 .. 44 + data_len]`. -/
def decodeEnvelope (data : List Nat) : Except PeriscopeError (List Nat) :=
  if data.length < headerSize then
    .error envelopeTooSmall
  else
    let dataLen := dataLenOf data
    if dataLen = 0 then
      .error emptyPayload
    else if data.length < headerSize + dataLen then
      .error (payloadTruncated dataLen (data.length - headerSize))
    else
      .ok ((data.drop headerSize).take dataLen)

/-! ## Canonical IDL data model (src/idl/types.rs) -/

mutual

/-- `IdlType` in `types.rs`: a primitive type name or a complex type. -/
inductive IdlType where
  | Primitive (s : String)
  | Complex (c : IdlTypeComplex)

/-- `IdlTypeComplex` in `types.rs`. -/
inductive IdlTypeComplex where
  | Vec (t : IdlType)
  | Option (t : IdlType)
  | Array (t : IdlType) (n : Nat)
  | Defined (name : String)

end

/-- `IdlField` in `types.rs`: a named, typed field. -/
structure IdlField where
  name : String
  ty : IdlType

/-- `IdlEnumFields` in `types.rs`: tuple-style or struct-style variant
fields.  Declaration order (Tuple before Named) matters for the untagged
deserializer. -/
inductive IdlEnumFields where
  | Tuple (types : List IdlType)
  | Named (fields : List IdlField)

/-- `IdlEnumVariant` in `types.rs`. -/
structure IdlEnumVariant where
  name : String
  fields : Option IdlEnumFields

/-- `IdlTypeDefTy` in `types.rs`. -/
inductive IdlTypeDefTy where
  | Struct (fields : List IdlField)
  | Enum (variants : List IdlEnumVariant)

/-- `IdlTypeDef` in `types.rs`. -/
structure IdlTypeDef where
  name : String
  ty : IdlTypeDefTy

/-- `IdlSeed` in `types.rs`. -/
inductive IdlSeed where
  | Const (value : Json)
  | Account (path : String)
  | Arg (path : String)

/-- `IdlPda` in `types.rs`. -/
structure IdlPda where
  seeds : List IdlSeed

/-- `IdlAccount` in `types.rs`: a single account in an instruction. -/
structure IdlAccount where
  name : String
  writable : Bool
  signer : Bool
  optional : Bool
  address : Option String
  pda : Option IdlPda

mutual

/-- `IdlAccountItem` in `types.rs`: a single account or a nested group.
Declaration order (Single before Group) matters for the untagged
deserializer. -/
inductive IdlAccountItem where
  | Single (a : IdlAccount)
  | Group (g : IdlAccountGroup)

/-- `IdlAccountGroup` in `types.rs`. -/
inductive IdlAccountGroup where
  | mk (name : String) (accounts : IdlAccountItemList)

/-- The account list inside an instruction or group (a `Vec<IdlAccountItem>`
in Rust, given its own list type so recursion over it is structural). -/
inductive IdlAccountItemList where
  | nil : IdlAccountItemList
  | cons (hd : IdlAccountItem) (tl : IdlAccountItemList) : IdlAccountItemList

end

/-- Name of an account group. -/
def IdlAccountGroup.name : IdlAccountGroup → String
  | .mk n _ => n

/-- Members of an account group. -/
def IdlAccountGroup.accounts : IdlAccountGroup → IdlAccountItemList
  | .mk _ xs => xs

/-- `IdlInstruction` in `types.rs`. -/
structure IdlInstruction where
  name : String
  discriminator : List Nat
  accounts : IdlAccountItemList
  args : List IdlField

/-- `IdlAccountRef` in `types.rs`: root-level discriminator-only account
reference. -/
structure IdlAccountRef where
  name : String
  discriminator : List Nat

/-- `IdlEventRef` in `types.rs`: root-level discriminator-only event
reference. -/
structure IdlEventRef where
  name : String
  discriminator : List Nat

/-- `IdlError` in `types.rs`: an error-code definition (`code` is a `u32`).
-/
structure IdlError where
  code : Nat
  name : String
  msg : Option String

/-- `IdlMetadata` in `types.rs`. -/
structure IdlMetadata where
  name : String
  version : String
  spec : String
  description : Option String

/-- `Idl` in `types.rs`: the root canonical document. -/
structure Idl where
  address : String
  metadata : IdlMetadata
  instructions : List IdlInstruction
  accounts : List IdlAccountRef
  types : List IdlTypeDef
  events : List IdlEventRef
  errors : List IdlError

/-! ## Legacy IDL data model (src/idl/legacy.rs) -/

mutual

/-- `LegacyType` in `legacy.rs`. -/
inductive LegacyType where
  | Primitive (s : String)
  | Complex (c : LegacyTypeComplex)

/-- `LegacyTypeComplex` in `legacy.rs` (`Defined` carries a bare string in
the legacy dialect). -/
inductive LegacyTypeComplex where
  | Vec (t : LegacyType)
  | Option (t : LegacyType)
  | Array (t : LegacyType) (n : Nat)
  | Defined (name : String)

end

/-- `LegacyField` in `legacy.rs`. -/
structure LegacyField where
  name : String
  docs : List String
  ty : LegacyType

/-- `LegacyEnumVariant` in `legacy.rs`: fields, when present, are a plain
list of named fields. -/
structure LegacyEnumVariant where
  name : String
  fields : Option (List LegacyField)

/-- `LegacyTypeDefTy` in `legacy.rs`. -/
inductive LegacyTypeDefTy where
  | Struct (fields : List LegacyField)
  | Enum (variants : List LegacyEnumVariant)

/-- `LegacyTypeDef` in `legacy.rs`. -/
structure LegacyTypeDef where
  name : String
  docs : List String
  ty : LegacyTypeDefTy

/-- `LegacyInstructionAccount` in `legacy.rs` (`isMut` / `isSigner` /
`isOptional` flags). -/
structure LegacyInstructionAccount where
  name : String
  is_mut : Bool
  is_signer : Bool
  is_optional : Bool
  docs : List String

/-- `LegacyInstruction` in `legacy.rs`. -/
structure LegacyInstruction where
  name : String
  docs : List String
  accounts : List LegacyInstructionAccount
  args : List LegacyField

/-- `LegacyMetadata` in `legacy.rs`. -/
structure LegacyMetadata where
  address : Option String
  origin : Option String
  binary_version : Option String
  lib_version : Option String

/-- `LegacyEvent` in `legacy.rs`: events carry full field bodies in the
legacy dialect. -/
structure LegacyEvent where
  name : String
  fields : List LegacyField

/-- `LegacyIdl` in `legacy.rs`: the root legacy document. -/
structure LegacyIdl where
  name : String
  version : String
  metadata : Option LegacyMetadata
  instructions : List LegacyInstruction
  accounts : List LegacyTypeDef
  types : List LegacyTypeDef
  events : List LegacyEvent
  errors : List IdlError

/-! ## Legacy to canonical conversion (the `From` impls in legacy.rs) -/

mutual

/-- `From<LegacyType> for IdlType`: `"publicKey"` renames to `"pubkey"`,
every other primitive passes through; complex constructors map recursively.
-/
def legacyTypeToIdl : LegacyType → IdlType
  | .Primitive s => if s = "publicKey" then .Primitive "pubkey" else .Primitive s
  | .Complex c => .Complex (legacyTypeComplexToIdl c)

/-- `From<LegacyTypeComplex> for IdlTypeComplex`. -/
def legacyTypeComplexToIdl : LegacyTypeComplex → IdlTypeComplex
  | .Vec t => .Vec (legacyTypeToIdl t)
  | .Option t => .Option (legacyTypeToIdl t)
  | .Array t n => .Array (legacyTypeToIdl t) n
  | .Defined nm => .Defined nm

end

/-- `From<LegacyField> for IdlField` (docs are dropped). -/
def legacyFieldToIdl (f : LegacyField) : IdlField :=
  { name := f.name, ty := legacyTypeToIdl f.ty }

/-- `From<LegacyEnumVariant> for IdlEnumVariant`: present fields become
`Named` fields; absent stays absent. -/
def legacyEnumVariantToIdl (v : LegacyEnumVariant) : IdlEnumVariant :=
  { name := v.name
    fields := v.fields.map fun fs => IdlEnumFields.Named (fs.map legacyFieldToIdl) }

/-- `From<LegacyTypeDefTy> for IdlTypeDefTy`. -/
def legacyTypeDefTyToIdl : LegacyTypeDefTy → IdlTypeDefTy
  | .Struct fields => .Struct (fields.map legacyFieldToIdl)
  | .Enum variants => .Enum (variants.map legacyEnumVariantToIdl)

/-- `From<LegacyTypeDef> for IdlTypeDef`. -/
def legacyTypeDefToIdl (td : LegacyTypeDef) : IdlTypeDef :=
  { name := td.name, ty := legacyTypeDefTyToIdl td.ty }

/-- `From<LegacyInstructionAccount> for IdlAccount`: `isMut`/`isSigner`/
`isOptional` map to `writable`/`signer`/`optional`; address and pda are left
unset. -/
def legacyInstructionAccountToIdl (a : LegacyInstructionAccount) : IdlAccount :=
  { name := a.name
    writable := a.is_mut
    signer := a.is_signer
    optional := a.is_optional
    address := none
    pda := none }

/-- The account list built by `From<LegacyInstruction> for IdlInstruction`:
every legacy account is wrapped as `IdlAccountItem::Single`. -/
def legacySingleItems : List LegacyInstructionAccount → IdlAccountItemList
  | [] => .nil
  | a :: rest => .cons (.Single (legacyInstructionAccountToIdl a)) (legacySingleItems rest)

/-- `From<LegacyInstruction> for IdlInstruction`: empty discriminator, every
account wrapped as `Single`. -/
def legacyInstructionToIdl (li : LegacyInstruction) : IdlInstruction :=
  { name := li.name
    discriminator := []
    accounts := legacySingleItems li.accounts
    args := li.args.map legacyFieldToIdl }

/-- `From<LegacyIdl> for Idl`: the full legacy-to-canonical conversion. -/
def legacyIdlToIdl (L : LegacyIdl) : Idl :=
  { address := ((L.metadata.bind fun m => m.address).getD "")
    metadata :=
      { name := L.name, version := L.version, spec := "legacy", description := none }
    instructions := L.instructions.map legacyInstructionToIdl
    accounts := L.accounts.map fun a => { name := a.name, discriminator := [] }
    types := (L.accounts ++ L.types).map legacyTypeDefToIdl
    events := L.events.map fun e => { name := e.name, discriminator := [] }
    errors := L.errors }

/-! ## Display formatting (src/display.rs) -/

mutual

/-- `format_type` in `display.rs`. -/
def format_type : IdlType → String
  | .Primitive s => s
  | .Complex c => format_complex_type c

/-- `format_complex_type` in `display.rs`. -/
def format_complex_type : IdlTypeComplex → String
  | .Vec inner => "Vec<" ++ format_type inner ++ ">"
  | .Option inner => "Option<" ++ format_type inner ++ ">"
  | .Array inner size => "[" ++ format_type inner ++ "; " ++ toString size ++ "]"
  | .Defined nm => nm

end

/-! ## Claim predicates over produced documents -/

/-- The invariant claimed for enum-variant fields: when present, the list is
nonempty. -/
def enumFieldsNonempty : Option IdlEnumFields → Bool
  | none => true
  | some (.Tuple ts) => !ts.isEmpty
  | some (.Named fs) => !fs.isEmpty

/-- Whether every enum variant in a document's type table satisfies the
claimed present-implies-nonempty fields invariant. -/
def idlVariantsOk (d : Idl) : Bool :=
  d.types.all fun td =>
    match td.ty with
    | .Struct _ => true
    | .Enum vs => vs.all fun v => enumFieldsNonempty v.fields

/-- Whether an account list consists of `Single` items only (a `Single`
carries no nested items, so this rules out `Group` nodes at every depth). -/
def allSingle : IdlAccountItemList → Bool
  | .nil => true
  | .cons (.Single _) tl => allSingle tl
  | .cons (.Group _) _ => false

/-- A legacy document containing an enum type whose variant has a present
but empty fields list. -/
def legacyEmptyVariantDoc : LegacyIdl :=
  { name := "prog"
    version := "0.1.0"
    metadata := none
    instructions := []
    accounts := []
    types := [{ name := "State", docs := [], ty := .Enum [{ name := "Empty", fields := some [] }] }]
    events := []
    errors := [] }

/-! ## Serde-derive deserializer model: generic helpers

These mirror the behaviour of the serde derive on the structs above: fields
are looked up by (possibly renamed) key, `#[serde(default)]` fields fall
back to their default when the key is missing, `Option` fields accept
`null`, unknown keys are ignored, `#[serde(untagged)]` enums try their
variants in declaration order, and numeric widths are range-checked. -/

/-- Parse each element of a JSON array with `p`. -/
def parseList (p : Json → Except String α) : JsonList → Except String (List α)
  | .nil => .ok []
  | .cons j tl =>
    match p j with
    | .error e => .error e
    | .ok x =>
      match parseList p tl with
      | .error e => .error e
      | .ok xs => .ok (x :: xs)

/-- A required `String` field. -/
def getStr (fs : JsonFields) (k : String) : Except String String :=
  match fs.lookup k with
  | some (.str s) => .ok s
  | some _ => .error ("invalid field " ++ k)
  | none => .error ("missing field " ++ k)

/-- A required field of any JSON shape. -/
def getJson (fs : JsonFields) (k : String) : Except String Json :=
  match fs.lookup k with
  | some j => .ok j
  | none => .error ("missing field " ++ k)

/-- An `Option<String>` field with `#[serde(default)]`: missing or `null`
is `None`. -/
def getOptStr (fs : JsonFields) (k : String) : Except String (Option String) :=
  match fs.lookup k with
  | none => .ok none
  | some .null => .ok none
  | some (.str s) => .ok (some s)
  | some _ => .error ("invalid field " ++ k)

/-- A `bool` field with `#[serde(default)]`: missing is `false`. -/
def getBoolD (fs : JsonFields) (k : String) : Except String Bool :=
  match fs.lookup k with
  | none => .ok false
  | some (.bool b) => .ok b
  | some _ => .error ("invalid field " ++ k)

/-- A required `Vec` field parsed elementwise with `p`. -/
def getList (fs : JsonFields) (k : String) (p : Json → Except String α) :
    Except String (List α) :=
  match fs.lookup k with
  | some (.arr xs) => parseList p xs
  | some _ => .error ("invalid field " ++ k)
  | none => .error ("missing field " ++ k)

/-- A `Vec` field with `#[serde(default)]`: missing is the empty list. -/
def getListD (fs : JsonFields) (k : String) (p : Json → Except String α) :
    Except String (List α) :=
  match fs.lookup k with
  | none => .ok []
  | some (.arr xs) => parseList p xs
  | some _ => .error ("invalid field " ++ k)

/-- An optional field with `#[serde(default)]` parsed by `p` when present
and non-null. -/
def getOpt (fs : JsonFields) (k : String) (p : Json → Except String α) :
    Except String (Option α) :=
  match fs.lookup k with
  | none => .ok none
  | some .null => .ok none
  | some j => (p j).map some

/-- A `u8` (byte) value. -/
def parseU8 : Json → Except String Nat
  | .num n => if 0 ≤ n ∧ n < 256 then .ok n.toNat else .error "invalid u8"
  | _ => .error "invalid u8"

/-- A `u32` value (the bound is checked on the natural side; for
non-negative `n` this is the same condition as `n < 2^32`). -/
def parseU32 : Json → Except String Nat
  | .num n => if 0 ≤ n ∧ n.toNat < 4294967296 then .ok n.toNat else .error "invalid u32"
  | _ => .error "invalid u32"

/-- A bare `String` value (for doc lines). -/
def parseStr : Json → Except String String
  | .str s => .ok s
  | _ => .error "invalid string"

/-! ## Deserializer for the canonical model (derives in src/idl/types.rs) -/

/-- The `defined` payload of a canonical complex type: a struct-variant
body with a required `name`. -/
def parseIdlTypeDefined : Json → Except String IdlType
  | .obj dfs =>
    match dfs.lookup "name" with
    | some (.str nm) => .ok (.Complex (.Defined nm))
    | _ => .error "invalid defined"
  | _ => .error "invalid defined"

mutual

/-- The derived deserializer for `IdlType`, an untagged union: the
`Primitive` variant accepts exactly a JSON string; the `Complex` variant is
an externally tagged enum, a single-entry map keyed `vec`, `option`,
`array` or `defined` (camelCase renames). -/
def parseIdlType : Json → Except String IdlType
  | .str s => .ok (.Primitive s)
  | .obj (.cons k v .nil) =>
    if k = "vec" then
      (parseIdlType v).map fun t => .Complex (.Vec t)
    else if k = "option" then
      (parseIdlType v).map fun t => .Complex (.Option t)
    else if k = "array" then
      parseIdlTypeArray v
    else if k = "defined" then
      parseIdlTypeDefined v
    else .error "unknown complex type"
  | _ => .error "invalid type"

/-- The `array` payload of a canonical complex type: a two-element tuple of
an element type and a size. -/
def parseIdlTypeArray : Json → Except String IdlType
  | .arr (.cons tj (.cons (.num n) .nil)) =>
    if n < 0 then .error "invalid array size"
    else (parseIdlType tj).map fun t => .Complex (.Array t n.toNat)
  | _ => .error "invalid array"

end

/-- The derived deserializer for `IdlField` (`type` is the renamed key for
`ty`). -/
def parseIdlField (j : Json) : Except String IdlField :=
  match j with
  | .obj fs =>
    match getStr fs "name" with
    | .error e => .error e
    | .ok nm =>
      match getJson fs "type" with
      | .error e => .error e
      | .ok tj =>
        match parseIdlType tj with
        | .error e => .error e
        | .ok t => .ok { name := nm, ty := t }
  | _ => .error "invalid field"

/-- The derived deserializer for `IdlEnumFields`, untagged with `Tuple`
tried before `Named`. -/
def parseIdlEnumFields (j : Json) : Except String IdlEnumFields :=
  match j with
  | .arr xs =>
    match parseList parseIdlType xs with
    | .ok ts => .ok (.Tuple ts)
    | .error _ =>
      match parseList parseIdlField xs with
      | .ok fields => .ok (.Named fields)
      | .error e => .error e
  | _ => .error "invalid enum fields"

/-- The derived deserializer for `IdlEnumVariant` (`fields` is a defaulted
`Option`). -/
def parseIdlEnumVariant (j : Json) : Except String IdlEnumVariant :=
  match j with
  | .obj fs =>
    match getStr fs "name" with
    | .error e => .error e
    | .ok nm =>
      match getOpt fs "fields" parseIdlEnumFields with
      | .error e => .error e
      | .ok efs => .ok { name := nm, fields := efs }
  | _ => .error "invalid enum variant"

/-- The derived deserializer for `IdlTypeDefTy`, internally tagged by
`kind` with lowercase variant names. -/
def parseIdlTypeDefTy (j : Json) : Except String IdlTypeDefTy :=
  match j with
  | .obj fs =>
    match fs.lookup "kind" with
    | some (.str "struct") => (getList fs "fields" parseIdlField).map .Struct
    | some (.str "enum") => (getList fs "variants" parseIdlEnumVariant).map .Enum
    | some _ => .error "unknown kind"
    | none => .error "missing field kind"
  | _ => .error "invalid type def"

/-- The derived deserializer for `IdlTypeDef`. -/
def parseIdlTypeDef (j : Json) : Except String IdlTypeDef :=
  match j with
  | .obj fs =>
    match getStr fs "name" with
    | .error e => .error e
    | .ok nm =>
      match getJson fs "type" with
      | .error e => .error e
      | .ok tj =>
        match parseIdlTypeDefTy tj with
        | .error e => .error e
        | .ok t => .ok { name := nm, ty := t }
  | _ => .error "invalid type def"

/-- The derived deserializer for `IdlSeed`, internally tagged by `kind`. -/
def parseIdlSeed (j : Json) : Except String IdlSeed :=
  match j with
  | .obj fs =>
    match fs.lookup "kind" with
    | some (.str "const") =>
      match getJson fs "value" with
      | .error e => .error e
      | .ok v => .ok (.Const v)
    | some (.str "account") => (getStr fs "path").map .Account
    | some (.str "arg") => (getStr fs "path").map .Arg
    | some _ => .error "unknown kind"
    | none => .error "missing field kind"
  | _ => .error "invalid seed"

/-- The derived deserializer for `IdlPda`. -/
def parseIdlPda (j : Json) : Except String IdlPda :=
  match j with
  | .obj fs => (getList fs "seeds" parseIdlSeed).map IdlPda.mk
  | _ => .error "invalid pda"

/-- The derived deserializer for `IdlAccount` (defaulted booleans and
options). -/
def parseIdlAccount (j : Json) : Except String IdlAccount :=
  match j with
  | .obj fs =>
    match getStr fs "name" with
    | .error e => .error e
    | .ok nm =>
      match getBoolD fs "writable" with
      | .error e => .error e
      | .ok w =>
        match getBoolD fs "signer" with
        | .error e => .error e
        | .ok sg =>
          match getBoolD fs "optional" with
          | .error e => .error e
          | .ok op =>
            match getOptStr fs "address" with
            | .error e => .error e
            | .ok addr =>
              match getOpt fs "pda" parseIdlPda with
              | .error e => .error e
              | .ok pda =>
                .ok { name := nm, writable := w, signer := sg,
                      optional := op, address := addr, pda := pda }
  | _ => .error "invalid account"

mutual

/-- The derived deserializer for `IdlAccountItem`, untagged with `Single`
tried before `Group`. -/
def parseIdlAccountItem (j : Json) : Except String IdlAccountItem :=
  match parseIdlAccount j with
  | .ok a => .ok (.Single a)
  | .error _ =>
    match j with
    | .obj fs =>
      match fs.lookup "name" with
      | some (.str nm) =>
        match groupAccountsOf fs with
        | .error e => .error e
        | .ok items => .ok (.Group (.mk nm items))
      | _ => .error "invalid account item"
    | _ => .error "invalid account item"

/-- The nested account list of an `IdlAccountGroup`, found by scanning the
object's members as the serde map visitor does. -/
def groupAccountsOf : JsonFields → Except String IdlAccountItemList
  | .nil => .error "missing field accounts"
  | .cons k v tl =>
    if k = "accounts" then
      match v with
      | .arr items => parseIdlAccountItemList items
      | _ => .error "invalid field accounts"
    else groupAccountsOf tl

/-- Elementwise deserializer for account-item lists. -/
def parseIdlAccountItemList : JsonList → Except String IdlAccountItemList
  | .nil => .ok .nil
  | .cons j tl =>
    match parseIdlAccountItem j with
    | .error e => .error e
    | .ok item =>
      match parseIdlAccountItemList tl with
      | .error e => .error e
      | .ok rest => .ok (.cons item rest)

end

/-- The derived deserializer for `IdlInstruction` (`discriminator` is a
defaulted byte vector; `accounts` and `args` are required). -/
def parseIdlInstruction (j : Json) : Except String IdlInstruction :=
  match j with
  | .obj fs =>
    match getStr fs "name" with
    | .error e => .error e
    | .ok nm =>
      match getListD fs "discriminator" parseU8 with
      | .error e => .error e
      | .ok disc =>
        match getJson fs "accounts" with
        | .error e => .error e
        | .ok aj =>
          match aj with
          | .arr items =>
            match parseIdlAccountItemList items with
            | .error e => .error e
            | .ok accts =>
              match getList fs "args" parseIdlField with
              | .error e => .error e
              | .ok args =>
                .ok { name := nm, discriminator := disc,
                      accounts := accts, args := args }
          | _ => .error "invalid field accounts"
  | _ => .error "invalid instruction"

/-- The derived deserializer for `IdlAccountRef`. -/
def parseIdlAccountRef (j : Json) : Except String IdlAccountRef :=
  match j with
  | .obj fs =>
    match getStr fs "name" with
    | .error e => .error e
    | .ok nm =>
      match getListD fs "discriminator" parseU8 with
      | .error e => .error e
      | .ok disc => .ok { name := nm, discriminator := disc }
  | _ => .error "invalid account ref"

/-- The derived deserializer for `IdlEventRef`. -/
def parseIdlEventRef (j : Json) : Except String IdlEventRef :=
  match j with
  | .obj fs =>
    match getStr fs "name" with
    | .error e => .error e
    | .ok nm =>
      match getListD fs "discriminator" parseU8 with
      | .error e => .error e
      | .ok disc => .ok { name := nm, discriminator := disc }
  | _ => .error "invalid event ref"

/-- The derived deserializer for `IdlError` (`code` is a `u32`, `msg` a
defaulted option). -/
def parseIdlError (j : Json) : Except String IdlError :=
  match j with
  | .obj fs =>
    match getJson fs "code" with
    | .error e => .error e
    | .ok cj =>
      match parseU32 cj with
      | .error e => .error e
      | .ok code =>
        match getStr fs "name" with
        | .error e => .error e
        | .ok nm =>
          match getOptStr fs "msg" with
          | .error e => .error e
          | .ok msg => .ok { code := code, name := nm, msg := msg }
  | _ => .error "invalid error"

/-- The derived deserializer for `IdlMetadata`. -/
def parseIdlMetadata (j : Json) : Except String IdlMetadata :=
  match j with
  | .obj fs =>
    match getStr fs "name" with
    | .error e => .error e
    | .ok nm =>
      match getStr fs "version" with
      | .error e => .error e
      | .ok ver =>
        match getStr fs "spec" with
        | .error e => .error e
        | .ok sp =>
          match getOptStr fs "description" with
          | .error e => .error e
          | .ok desc =>
            .ok { name := nm, version := ver, spec := sp, description := desc }
  | _ => .error "invalid metadata"

/-- The derived deserializer for the root `Idl` struct: `address`,
`metadata` and `instructions` are required, the remaining lists are
defaulted.  This is what every ingestion path in `fetcher.rs` invokes
(`serde_json::from_slice` at line 152, `from_str` at lines 179 and 234). -/
def parseIdl (j : Json) : Except String Idl :=
  match j with
  | .obj fs =>
    match getStr fs "address" with
    | .error e => .error e
    | .ok addr =>
      match getJson fs "metadata" with
      | .error e => .error e
      | .ok mj =>
        match parseIdlMetadata mj with
        | .error e => .error e
        | .ok md =>
          match getList fs "instructions" parseIdlInstruction with
          | .error e => .error e
          | .ok ixs =>
            match getListD fs "accounts" parseIdlAccountRef with
            | .error e => .error e
            | .ok accts =>
              match getListD fs "types" parseIdlTypeDef with
              | .error e => .error e
              | .ok tys =>
                match getListD fs "events" parseIdlEventRef with
                | .error e => .error e
                | .ok evs =>
                  match getListD fs "errors" parseIdlError with
                  | .error e => .error e
                  | .ok errs =>
                    .ok { address := addr, metadata := md,
                          instructions := ixs, accounts := accts,
                          types := tys, events := evs, errors := errs }
  | _ => .error "invalid idl"

/-! ## Deserializer for the legacy model (derives in src/idl/legacy.rs) -/

/-- The `defined` payload of a legacy complex type: a bare string. -/
def parseLegacyTypeDefined : Json → Except String LegacyType
  | .str nm => .ok (.Complex (.Defined nm))
  | _ => .error "invalid defined"

mutual

/-- The derived deserializer for `LegacyType`: like `IdlType`, except the
`defined` variant carries a bare string. -/
def parseLegacyType : Json → Except String LegacyType
  | .str s => .ok (.Primitive s)
  | .obj (.cons k v .nil) =>
    if k = "vec" then
      (parseLegacyType v).map fun t => .Complex (.Vec t)
    else if k = "option" then
      (parseLegacyType v).map fun t => .Complex (.Option t)
    else if k = "array" then
      parseLegacyTypeArray v
    else if k = "defined" then
      parseLegacyTypeDefined v
    else .error "unknown complex type"
  | _ => .error "invalid type"

/-- The `array` payload of a legacy complex type. -/
def parseLegacyTypeArray : Json → Except String LegacyType
  | .arr (.cons tj (.cons (.num n) .nil)) =>
    if n < 0 then .error "invalid array size"
    else (parseLegacyType tj).map fun t => .Complex (.Array t n.toNat)
  | _ => .error "invalid array"

end

/-- The derived deserializer for `LegacyField` (defaulted `docs`, renamed
`type`). -/
def parseLegacyField (j : Json) : Except String LegacyField :=
  match j with
  | .obj fs =>
    match getStr fs "name" with
    | .error e => .error e
    | .ok nm =>
      match getListD fs "docs" parseStr with
      | .error e => .error e
      | .ok docs =>
        match getJson fs "type" with
        | .error e => .error e
        | .ok tj =>
          match parseLegacyType tj with
          | .error e => .error e
          | .ok t => .ok { name := nm, docs := docs, ty := t }
  | _ => .error "invalid field"

/-- The derived deserializer for `LegacyEnumVariant` (`fields` is a
defaulted `Option<Vec<LegacyField>>`). -/
def parseLegacyEnumVariant (j : Json) : Except String LegacyEnumVariant :=
  match j with
  | .obj fs =>
    match getStr fs "name" with
    | .error e => .error e
    | .ok nm =>
      match getOpt fs "fields" (fun fj =>
        match fj with
        | .arr xs => parseList parseLegacyField xs
        | _ => .error "invalid fields") with
      | .error e => .error e
      | .ok flds => .ok { name := nm, fields := flds }
  | _ => .error "invalid enum variant"

/-- The derived deserializer for `LegacyTypeDefTy`, internally tagged by
`kind`; both bodies are defaulted in the legacy dialect. -/
def parseLegacyTypeDefTy (j : Json) : Except String LegacyTypeDefTy :=
  match j with
  | .obj fs =>
    match fs.lookup "kind" with
    | some (.str "struct") => (getListD fs "fields" parseLegacyField).map .Struct
    | some (.str "enum") => (getListD fs "variants" parseLegacyEnumVariant).map .Enum
    | some _ => .error "unknown kind"
    | none => .error "missing field kind"
  | _ => .error "invalid type def"

/-- The derived deserializer for `LegacyTypeDef`. -/
def parseLegacyTypeDef (j : Json) : Except String LegacyTypeDef :=
  match j with
  | .obj fs =>
    match getStr fs "name" with
    | .error e => .error e
    | .ok nm =>
      match getListD fs "docs" parseStr with
      | .error e => .error e
      | .ok docs =>
        match getJson fs "type" with
        | .error e => .error e
        | .ok tj =>
          match parseLegacyTypeDefTy tj with
          | .error e => .error e
          | .ok t => .ok { name := nm, docs := docs, ty := t }
  | _ => .error "invalid type def"

/-- The derived deserializer for `LegacyInstructionAccount` (`isMut`,
`isSigner`, `isOptional` renames, all defaulted). -/
def parseLegacyInstructionAccount (j : Json) : Except String LegacyInstructionAccount :=
  match j with
  | .obj fs =>
    match getStr fs "name" with
    | .error e => .error e
    | .ok nm =>
      match getBoolD fs "isMut" with
      | .error e => .error e
      | .ok m =>
        match getBoolD fs "isSigner" with
        | .error e => .error e
        | .ok sg =>
          match getBoolD fs "isOptional" with
          | .error e => .error e
          | .ok op =>
            match getListD fs "docs" parseStr with
            | .error e => .error e
            | .ok docs =>
              .ok { name := nm, is_mut := m, is_signer := sg,
                    is_optional := op, docs := docs }
  | _ => .error "invalid account"

/-- The derived deserializer for `LegacyInstruction` (all body lists
defaulted). -/
def parseLegacyInstruction (j : Json) : Except String LegacyInstruction :=
  match j with
  | .obj fs =>
    match getStr fs "name" with
    | .error e => .error e
    | .ok nm =>
      match getListD fs "docs" parseStr with
      | .error e => .error e
      | .ok docs =>
        match getListD fs "accounts" parseLegacyInstructionAccount with
        | .error e => .error e
        | .ok accts =>
          match getListD fs "args" parseLegacyField with
          | .error e => .error e
          | .ok args =>
            .ok { name := nm, docs := docs, accounts := accts, args := args }
  | _ => .error "invalid instruction"

/-- The derived deserializer for `LegacyMetadata` (`binaryVersion` and
`libVersion` renames). -/
def parseLegacyMetadata (j : Json) : Except String LegacyMetadata :=
  match j with
  | .obj fs =>
    match getOptStr fs "address" with
    | .error e => .error e
    | .ok addr =>
      match getOptStr fs "origin" with
      | .error e => .error e
      | .ok org =>
        match getOptStr fs "binaryVersion" with
        | .error e => .error e
        | .ok bv =>
          match getOptStr fs "libVersion" with
          | .error e => .error e
          | .ok lv =>
            .ok { address := addr, origin := org,
                  binary_version := bv, lib_version := lv }
  | _ => .error "invalid metadata"

/-- The derived deserializer for `LegacyEvent` (full field bodies,
defaulted). -/
def parseLegacyEvent (j : Json) : Except String LegacyEvent :=
  match j with
  | .obj fs =>
    match getStr fs "name" with
    | .error e => .error e
    | .ok nm =>
      match getListD fs "fields" parseLegacyField with
      | .error e => .error e
      | .ok flds => .ok { name := nm, fields := flds }
  | _ => .error "invalid event"

/-- The derived deserializer for the root `LegacyIdl` struct: `name` and
`version` are required, everything else is defaulted. -/
def parseLegacyIdl (j : Json) : Except String LegacyIdl :=
  match j with
  | .obj fs =>
    match getStr fs "name" with
    | .error e => .error e
    | .ok nm =>
      match getStr fs "version" with
      | .error e => .error e
      | .ok ver =>
        match getOpt fs "metadata" parseLegacyMetadata with
        | .error e => .error e
        | .ok md =>
          match getListD fs "instructions" parseLegacyInstruction with
          | .error e => .error e
          | .ok ixs =>
            match getListD fs "accounts" parseLegacyTypeDef with
            | .error e => .error e
            | .ok accts =>
              match getListD fs "types" parseLegacyTypeDef with
              | .error e => .error e
              | .ok tys =>
                match getListD fs "events" parseLegacyEvent with
                | .error e => .error e
                | .ok evs =>
                  match getListD fs "errors" parseIdlError with
                  | .error e => .error e
                  | .ok errs =>
                    .ok { name := nm, version := ver, metadata := md,
                          instructions := ixs, accounts := accts,
                          types := tys, events := evs, errors := errs }
  | _ => .error "invalid idl"

/-! ## Concrete documents -/

/-- The legacy JSON input of the spec's conversion scenario. -/
def c4Json : Json := .mkObj
  [("name", .str "foo"),
   ("version", .str "1.0.0"),
   ("instructions", .mkArr
     [.mkObj
       [("name", .str "initialize"),
        ("accounts", .mkArr
          [.mkObj
            [("name", .str "signer"),
             ("isMut", .bool true),
             ("isSigner", .bool true)]]),
        ("args", .mkArr [])]]),
   ("accounts", .mkArr []),
   ("types", .mkArr []),
   ("events", .mkArr []),
   ("errors", .mkArr [])]

/-- The `LegacyIdl` value denoted by `c4Json`. -/
def c4Legacy : LegacyIdl :=
  { name := "foo"
    version := "1.0.0"
    metadata := none
    instructions :=
      [{ name := "initialize"
         docs := []
         accounts :=
           [{ name := "signer", is_mut := true, is_signer := true,
              is_optional := false, docs := [] }]
         args := [] }]
    accounts := []
    types := []
    events := []
    errors := [] }

/-- The canonical document the scenario requires. -/
def c4Canonical : Idl :=
  { address := ""
    metadata := { name := "foo", version := "1.0.0", spec := "legacy", description := none }
    instructions :=
      [{ name := "initialize"
         discriminator := []
         accounts :=
           .cons (.Single
             { name := "signer", writable := true, signer := true,
               optional := false, address := none, pda := none }) .nil
         args := [] }]
    accounts := []
    types := []
    events := []
    errors := [] }

/-- A minimal canonical-dialect document (top-level string `address`). -/
def canonicalJsonSample : Json := .mkObj
  [("address", .str "Prog1111"),
   ("metadata", .mkObj
     [("name", .str "foo"),
      ("version", .str "1.0.0"),
      ("spec", .str "0.1.0")]),
   ("instructions", .mkArr [])]

deriving instance DecidableEq for Json, JsonList, JsonFields

deriving instance DecidableEq for IdlType, IdlTypeComplex

deriving instance DecidableEq for IdlField, IdlEnumFields, IdlEnumVariant, IdlTypeDefTy, IdlTypeDef

deriving instance DecidableEq for IdlSeed, IdlPda, IdlAccount

deriving instance DecidableEq for IdlAccountItem, IdlAccountGroup, IdlAccountItemList

deriving instance DecidableEq for IdlInstruction, IdlAccountRef, IdlEventRef, IdlError, IdlMetadata, Idl

deriving instance DecidableEq for LegacyType, LegacyTypeComplex

deriving instance DecidableEq for LegacyField, LegacyEnumVariant, LegacyTypeDefTy, LegacyTypeDef

deriving instance DecidableEq for LegacyInstructionAccount, LegacyInstruction, LegacyMetadata, LegacyEvent, LegacyIdl

/-! ## Canonical-dialect serializer

Modelled from the spec: the crate derives no `Serialize` for `Idl` (the
cache layer that would persist it is an unimplemented stub), so the
re-serialization step is modelled from the spec's canonical JSON format
(section 6): a top-level object with `address`, `metadata`, `instructions`
and the four optional lists; types as bare strings or single-key tagged
objects; type definitions tagged by `kind`; optional fields omitted when
absent. -/

mutual

/-- Modelled from the spec: serialize an `IdlType` to canonical JSON. -/
def serializeIdlType : IdlType → Json
  | .Primitive s => .str s
  | .Complex c => serializeIdlTypeComplex c

/-- Modelled from the spec: serialize a complex type as a single-key map
tagged `vec`, `option`, `array` or `defined`. -/
def serializeIdlTypeComplex : IdlTypeComplex → Json
  | .Vec t => .obj (.cons "vec" (serializeIdlType t) .nil)
  | .Option t => .obj (.cons "option" (serializeIdlType t) .nil)
  | .Array t n =>
    .obj (.cons "array"
      (.arr (.cons (serializeIdlType t) (.cons (.num (Int.ofNat n)) .nil))) .nil)
  | .Defined nm =>
    .obj (.cons "defined" (.obj (.cons "name" (.str nm) .nil)) .nil)

end

/-- Modelled from the spec: serialize a field as `name`/`type`. -/
def serializeIdlField (f : IdlField) : Json :=
  .mkObj [("name", .str f.name), ("type", serializeIdlType f.ty)]

/-- Modelled from the spec: serialize enum-variant fields as the array of
their element serializations. -/
def serializeIdlEnumFields : IdlEnumFields → Json
  | .Tuple ts => .arr (JsonList.ofList (ts.map serializeIdlType))
  | .Named fs => .arr (JsonList.ofList (fs.map serializeIdlField))

/-- Modelled from the spec: serialize an enum variant, omitting `fields`
when absent. -/
def serializeIdlEnumVariant (v : IdlEnumVariant) : Json :=
  .mkObj ([("name", Json.str v.name)] ++
    (match v.fields with
     | none => []
     | some efs => [("fields", serializeIdlEnumFields efs)]))

/-- Modelled from the spec: serialize a type-definition body tagged by
`kind`. -/
def serializeIdlTypeDefTy : IdlTypeDefTy → Json
  | .Struct fields =>
    .mkObj [("kind", .str "struct"),
            ("fields", .arr (JsonList.ofList (fields.map serializeIdlField)))]
  | .Enum variants =>
    .mkObj [("kind", .str "enum"),
            ("variants", .arr (JsonList.ofList (variants.map serializeIdlEnumVariant)))]

/-- Modelled from the spec: serialize a named type definition. -/
def serializeIdlTypeDef (td : IdlTypeDef) : Json :=
  .mkObj [("name", .str td.name), ("type", serializeIdlTypeDefTy td.ty)]

/-- Modelled from the spec: serialize a PDA seed tagged by `kind`. -/
def serializeIdlSeed : IdlSeed → Json
  | .Const v => .mkObj [("kind", .str "const"), ("value", v)]
  | .Account p => .mkObj [("kind", .str "account"), ("path", .str p)]
  | .Arg p => .mkObj [("kind", .str "arg"), ("path", .str p)]

/-- Modelled from the spec: serialize a PDA definition. -/
def serializeIdlPda (p : IdlPda) : Json :=
  .mkObj [("seeds", .arr (JsonList.ofList (p.seeds.map serializeIdlSeed)))]

/-- Modelled from the spec: serialize a single account, omitting `address`
and `pda` when absent. -/
def serializeIdlAccount (a : IdlAccount) : Json :=
  .mkObj ([("name", Json.str a.name), ("writable", Json.bool a.writable),
           ("signer", Json.bool a.signer), ("optional", Json.bool a.optional)] ++
    (match a.address with
     | none => []
     | some s => [("address", Json.str s)]) ++
    (match a.pda with
     | none => []
     | some p => [("pda", serializeIdlPda p)]))

mutual

/-- Modelled from the spec: serialize an account item — a flat account
object, or a group object with a nested `accounts` key. -/
def serializeIdlAccountItem : IdlAccountItem → Json
  | .Single a => serializeIdlAccount a
  | .Group g =>
    match g with
    | .mk nm items =>
      .obj (.cons "name" (.str nm)
        (.cons "accounts" (.arr (serializeIdlAccountItemList items)) .nil))

/-- Modelled from the spec: serialize an account-item list. -/
def serializeIdlAccountItemList : IdlAccountItemList → JsonList
  | .nil => .nil
  | .cons it tl => .cons (serializeIdlAccountItem it) (serializeIdlAccountItemList tl)

end

/-- Serialize a byte list as a JSON array of numbers. -/
def serializeBytes (bs : List Nat) : Json :=
  .arr (JsonList.ofList (bs.map fun b => Json.num (Int.ofNat b)))

/-- Modelled from the spec: serialize an instruction. -/
def serializeIdlInstruction (ix : IdlInstruction) : Json :=
  .mkObj [("name", .str ix.name),
          ("discriminator", serializeBytes ix.discriminator),
          ("accounts", .arr (serializeIdlAccountItemList ix.accounts)),
          ("args", .arr (JsonList.ofList (ix.args.map serializeIdlField)))]

/-- Modelled from the spec: serialize a root-level account reference. -/
def serializeIdlAccountRef (r : IdlAccountRef) : Json :=
  .mkObj [("name", .str r.name), ("discriminator", serializeBytes r.discriminator)]

/-- Modelled from the spec: serialize a root-level event reference. -/
def serializeIdlEventRef (r : IdlEventRef) : Json :=
  .mkObj [("name", .str r.name), ("discriminator", serializeBytes r.discriminator)]

/-- Modelled from the spec: serialize an error definition, omitting `msg`
when absent. -/
def serializeIdlError (e : IdlError) : Json :=
  .mkObj ([("code", Json.num (Int.ofNat e.code)), ("name", Json.str e.name)] ++
    (match e.msg with
     | none => []
     | some m => [("msg", Json.str m)]))

/-- Modelled from the spec: serialize the metadata block, omitting
`description` when absent. -/
def serializeIdlMetadata (m : IdlMetadata) : Json :=
  .mkObj ([("name", Json.str m.name), ("version", Json.str m.version),
           ("spec", Json.str m.spec)] ++
    (match m.description with
     | none => []
     | some d => [("description", Json.str d)]))

/-- Modelled from the spec: serialize a canonical document to
canonical-dialect JSON. -/
def serializeIdl (d : Idl) : Json :=
  .mkObj [("address", .str d.address),
          ("metadata", serializeIdlMetadata d.metadata),
          ("instructions", .arr (JsonList.ofList (d.instructions.map serializeIdlInstruction))),
          ("accounts", .arr (JsonList.ofList (d.accounts.map serializeIdlAccountRef))),
          ("types", .arr (JsonList.ofList (d.types.map serializeIdlTypeDef))),
          ("events", .arr (JsonList.ofList (d.events.map serializeIdlEventRef))),
          ("errors", .arr (JsonList.ofList (d.errors.map serializeIdlError)))]

/-! ## Stability predicates -/

/-- Enum-variant fields that survive the canonical round trip: a `Named`
list must be nonempty (an empty one re-parses as `Tuple`). -/
def namedNonempty : IdlEnumFields → Bool
  | .Tuple _ => true
  | .Named fs => !fs.isEmpty

/-- A legacy enum variant whose conversion survives the round trip: fields,
when present, are nonempty. -/
def legacyVariantGood (v : LegacyEnumVariant) : Bool :=
  match v.fields with
  | none => true
  | some fs => !fs.isEmpty

/-- A legacy type definition all of whose variants are good. -/
def legacyTypeDefGood (td : LegacyTypeDef) : Bool :=
  match td.ty with
  | .Struct _ => true
  | .Enum vs => vs.all legacyVariantGood

/-- Legacy documents whose conversion survives re-serialization: every enum
variant's fields list (across account bodies and types) is nonempty when
present, and every error code fits in a `u32` (guaranteed by Rust's types,
made explicit here because codes are modelled as naturals). -/
def goodLegacy (L : LegacyIdl) : Bool :=
  (L.accounts ++ L.types).all legacyTypeDefGood &&
    L.errors.all fun e => e.code < 4294967296

def variantGood (v : IdlEnumVariant) : Bool :=
  match v.fields with
  | none => true
  | some e => namedNonempty e

def typeDefGood (td : IdlTypeDef) : Bool :=
  match td.ty with
  | .Struct _ => true
  | .Enum vs => vs.all variantGood

def instructionGood (ix : IdlInstruction) : Bool :=
  ix.discriminator.all (fun b => b < 256) && allSingle ix.accounts

def refBytesGood (disc : List Nat) : Bool :=
  disc.all fun b => b < 256

def idlRoundTrips (d : Idl) : Bool :=
  d.instructions.all instructionGood &&
    d.accounts.all (fun r => refBytesGood r.discriminator) &&
    d.events.all (fun r => refBytesGood r.discriminator) &&
    d.types.all typeDefGood &&
    d.errors.all fun e => e.code < 4294967296

/-! ## Round-trip lemmas for the modelled serializer and deserializer -/

mutual

theorem rt_type : ∀ t : IdlType, parseIdlType (serializeIdlType t) = .ok t
  | .Primitive _ => rfl
  | .Complex c => rt_complex c

theorem rt_complex : ∀ c : IdlTypeComplex,
    parseIdlType (serializeIdlTypeComplex c) = .ok (.Complex c)
  | .Vec t => by
    simp [serializeIdlTypeComplex, parseIdlType, rt_type t, Except.map]
  | .Option t => by
    simp [serializeIdlTypeComplex, parseIdlType, rt_type t, Except.map]
  | .Array t n => by
    simp [serializeIdlTypeComplex, parseIdlType, parseIdlTypeArray, rt_type t, Except.map]
  | .Defined nm => rfl

end

theorem rt_field (f : IdlField) :
    parseIdlField (serializeIdlField f) = .ok f := by
  simp [serializeIdlField, parseIdlField, Json.mkObj, JsonFields.ofList,
    getStr, getJson, JsonFields.lookup, rt_type f.ty]

theorem parseList_cons_error {α : Type} {p : Json → Except String α} {j : Json}
    {tl : JsonList} {e : String} (h : p j = .error e) :
    parseList p (.cons j tl) = .error e := by
  simp [parseList, h]

theorem parseList_ofList_map {α : Type} {p : Json → Except String α} {s : α → Json}
    (xs : List α) (h : ∀ x ∈ xs, p (s x) = .ok x) :
    parseList p (JsonList.ofList (xs.map s)) = .ok xs := by
  induction xs with
  | nil => rfl
  | cons x rest ih =>
    simp only [List.map_cons, JsonList.ofList, parseList, h x (by simp)]
    rw [ih fun y hy => h y (by simp [hy])]

theorem rt_enumFields (e : IdlEnumFields) (h : namedNonempty e = true) :
    parseIdlEnumFields (serializeIdlEnumFields e) = .ok e := by
  cases e with
  | Tuple ts =>
    simp only [serializeIdlEnumFields, parseIdlEnumFields]
    rw [parseList_ofList_map ts fun t _ => rt_type t]
  | Named fs =>
    cases fs with
    | nil => simp [namedNonempty] at h
    | cons f rest =>
      have hfail : parseIdlType (serializeIdlField f) = .error "invalid type" := by
        simp [serializeIdlField, Json.mkObj, JsonFields.ofList, parseIdlType]
      have hTuple : parseList parseIdlType
          (JsonList.cons (serializeIdlField f)
            (JsonList.ofList (rest.map serializeIdlField))) =
          .error "invalid type" := parseList_cons_error hfail
      have hNamed : parseList parseIdlField
          (JsonList.cons (serializeIdlField f)
            (JsonList.ofList (rest.map serializeIdlField))) =
          .ok (f :: rest) := by
        have := parseList_ofList_map (p := parseIdlField) (s := serializeIdlField)
          (f :: rest) fun x _ => rt_field x
        simpa [JsonList.ofList] using this
      simp only [serializeIdlEnumFields, List.map_cons, JsonList.ofList,
        parseIdlEnumFields, hTuple, hNamed]

theorem serializeIdlEnumFields_arr (e : IdlEnumFields) :
    ∃ xs, serializeIdlEnumFields e = .arr xs := by
  cases e <;> exact ⟨_, rfl⟩

theorem rt_enumVariant (v : IdlEnumVariant)
    (h : ∀ e, v.fields = some e → namedNonempty e = true) :
    parseIdlEnumVariant (serializeIdlEnumVariant v) = .ok v := by
  obtain ⟨nm, fields⟩ := v
  cases fields with
  | none =>
    simp [serializeIdlEnumVariant, parseIdlEnumVariant, Json.mkObj,
      JsonFields.ofList, getStr, getOpt, JsonFields.lookup]
  | some efs =>
    obtain ⟨xs, hxs⟩ := serializeIdlEnumFields_arr efs
    have hp : parseIdlEnumFields (.arr xs) = .ok efs := by
      rw [← hxs]
      exact rt_enumFields efs (h efs rfl)
    simp [serializeIdlEnumVariant, parseIdlEnumVariant, Json.mkObj,
      JsonFields.ofList, getStr, getOpt, JsonFields.lookup, hxs, hp, Except.map]

theorem rt_typeDefTy (t : IdlTypeDefTy)
    (h : ∀ vs, t = .Enum vs → ∀ v ∈ vs, variantGood v = true) :
    parseIdlTypeDefTy (serializeIdlTypeDefTy t) = .ok t := by
  cases t with
  | Struct fields =>
    have hf := parseList_ofList_map fields fun f _ => rt_field f
    simp [serializeIdlTypeDefTy, parseIdlTypeDefTy, Json.mkObj,
      JsonFields.ofList, getList, JsonFields.lookup, hf, Except.map]
  | Enum vs =>
    have hv := parseList_ofList_map vs fun v hv => rt_enumVariant v
      (fun e he => by
        have := h vs rfl v hv
        simp only [variantGood, he] at this
        exact this)
    simp [serializeIdlTypeDefTy, parseIdlTypeDefTy, Json.mkObj,
      JsonFields.ofList, getList, JsonFields.lookup, hv, Except.map]

theorem rt_typeDef (td : IdlTypeDef) (h : typeDefGood td = true) :
    parseIdlTypeDef (serializeIdlTypeDef td) = .ok td := by
  obtain ⟨nm, ty⟩ := td
  have hty : parseIdlTypeDefTy (serializeIdlTypeDefTy ty) = .ok ty := by
    apply rt_typeDefTy
    intro vs hvs v hv
    subst hvs
    simp only [typeDefGood, List.all_eq_true] at h
    exact h v hv
  obtain ⟨xs, hxs⟩ : ∃ xs, serializeIdlTypeDefTy ty = .obj xs := by
    cases ty <;> exact ⟨_, rfl⟩
  rw [hxs] at hty
  simp [serializeIdlTypeDef, parseIdlTypeDef, Json.mkObj, JsonFields.ofList,
    getStr, getJson, JsonFields.lookup, hxs, hty]

theorem rt_seed (s : IdlSeed) : parseIdlSeed (serializeIdlSeed s) = .ok s := by
  cases s <;>
    simp [serializeIdlSeed, parseIdlSeed, Json.mkObj, JsonFields.ofList,
      getStr, getJson, JsonFields.lookup, Except.map]

theorem rt_pda (p : IdlPda) : parseIdlPda (serializeIdlPda p) = .ok p := by
  obtain ⟨seeds⟩ := p
  have hs := parseList_ofList_map seeds fun s _ => rt_seed s
  simp [serializeIdlPda, parseIdlPda, Json.mkObj, JsonFields.ofList,
    getList, JsonFields.lookup, hs, Except.map]

theorem rt_account (a : IdlAccount) :
    parseIdlAccount (serializeIdlAccount a) = .ok a := by
  obtain ⟨nm, w, sg, op, addr, pda⟩ := a
  cases addr with
  | none =>
    cases pda with
    | none =>
      simp [serializeIdlAccount, parseIdlAccount, Json.mkObj, JsonFields.ofList,
        getStr, getBoolD, getOptStr, getOpt, JsonFields.lookup]
    | some p =>
      obtain ⟨xs, hxs⟩ : ∃ xs, serializeIdlPda p = .obj xs := ⟨_, rfl⟩
      have hp : parseIdlPda (.obj xs) = .ok p := by
        rw [← hxs]; exact rt_pda p
      simp [serializeIdlAccount, parseIdlAccount, Json.mkObj, JsonFields.ofList,
        getStr, getBoolD, getOptStr, getOpt, JsonFields.lookup, hxs, hp, Except.map]
  | some s =>
    cases pda with
    | none =>
      simp [serializeIdlAccount, parseIdlAccount, Json.mkObj, JsonFields.ofList,
        getStr, getBoolD, getOptStr, getOpt, JsonFields.lookup]
    | some p =>
      obtain ⟨xs, hxs⟩ : ∃ xs, serializeIdlPda p = .obj xs := ⟨_, rfl⟩
      have hp : parseIdlPda (.obj xs) = .ok p := by
        rw [← hxs]; exact rt_pda p
      simp [serializeIdlAccount, parseIdlAccount, Json.mkObj, JsonFields.ofList,
        getStr, getBoolD, getOptStr, getOpt, JsonFields.lookup, hxs, hp, Except.map]

theorem rt_item_single (a : IdlAccount) :
    parseIdlAccountItem (serializeIdlAccountItem (.Single a)) = .ok (.Single a) := by
  simp only [serializeIdlAccountItem, parseIdlAccountItem, rt_account a]

theorem rt_itemList :
    ∀ items : IdlAccountItemList, allSingle items = true →
      parseIdlAccountItemList (serializeIdlAccountItemList items) = .ok items
  | .nil, _ => rfl
  | .cons (.Single a) tl, h => by
    have htl : allSingle tl = true := by simpa [allSingle] using h
    simp only [serializeIdlAccountItemList, parseIdlAccountItemList,
      rt_item_single a, rt_itemList tl htl]
  | .cons (.Group g) tl, h => by simp [allSingle] at h

theorem rt_bytes (bs : List Nat) (h : ∀ b ∈ bs, b < 256) :
    parseList parseU8 (JsonList.ofList (bs.map fun b => Json.num ((b : Nat) : Int))) =
      .ok bs := by
  apply parseList_ofList_map
  intro b hb
  simp [parseU8, h b hb]

theorem rt_instruction (ix : IdlInstruction) (h : instructionGood ix = true) :
    parseIdlInstruction (serializeIdlInstruction ix) = .ok ix := by
  obtain ⟨nm, disc, accts, args⟩ := ix
  simp only [instructionGood, Bool.and_eq_true, List.all_eq_true,
    decide_eq_true_eq] at h
  obtain ⟨hb, hs⟩ := h
  have hbytes := rt_bytes disc hb
  have hitems := rt_itemList accts hs
  have hargs := parseList_ofList_map args fun f _ => rt_field f
  simp [serializeIdlInstruction, parseIdlInstruction, serializeBytes,
    Json.mkObj, JsonFields.ofList, getStr, getJson, getList, getListD,
    JsonFields.lookup, hbytes, hitems, hargs]

theorem rt_accountRef (r : IdlAccountRef) (h : refBytesGood r.discriminator = true) :
    parseIdlAccountRef (serializeIdlAccountRef r) = .ok r := by
  obtain ⟨nm, disc⟩ := r
  simp only [refBytesGood, List.all_eq_true, decide_eq_true_eq] at h
  have hbytes := rt_bytes disc h
  simp [serializeIdlAccountRef, parseIdlAccountRef, serializeBytes,
    Json.mkObj, JsonFields.ofList, getStr, getListD, JsonFields.lookup, hbytes]

theorem rt_eventRef (r : IdlEventRef) (h : refBytesGood r.discriminator = true) :
    parseIdlEventRef (serializeIdlEventRef r) = .ok r := by
  obtain ⟨nm, disc⟩ := r
  simp only [refBytesGood, List.all_eq_true, decide_eq_true_eq] at h
  have hbytes := rt_bytes disc h
  simp [serializeIdlEventRef, parseIdlEventRef, serializeBytes,
    Json.mkObj, JsonFields.ofList, getStr, getListD, JsonFields.lookup, hbytes]

theorem rt_error (e : IdlError) (h : e.code < 4294967296) :
    parseIdlError (serializeIdlError e) = .ok e := by
  obtain ⟨code, nm, msg⟩ := e
  have h2 : code < 4294967296 := h
  have hc : parseU32 (Json.num (code : Int)) = .ok code := by
    simp [parseU32, h2]
  cases msg <;>
    simp [serializeIdlError, parseIdlError, Json.mkObj, JsonFields.ofList,
      getStr, getJson, getOptStr, JsonFields.lookup, hc]

theorem rt_metadata (m : IdlMetadata) :
    parseIdlMetadata (serializeIdlMetadata m) = .ok m := by
  obtain ⟨nm, ver, sp, desc⟩ := m
  cases desc <;>
    simp [serializeIdlMetadata, parseIdlMetadata, Json.mkObj, JsonFields.ofList,
      getStr, getOptStr, JsonFields.lookup]

theorem rt_idl (d : Idl) (h : idlRoundTrips d = true) :
    parseIdl (serializeIdl d) = .ok d := by
  obtain ⟨addr, md, ixs, accts, tys, evs, errs⟩ := d
  simp only [idlRoundTrips, Bool.and_eq_true, List.all_eq_true,
    decide_eq_true_eq] at h
  obtain ⟨⟨⟨⟨hix, hacc⟩, hev⟩, hty⟩, herr⟩ := h
  obtain ⟨mxs, hmxs⟩ : ∃ xs, serializeIdlMetadata md = .obj xs := by
    obtain ⟨a, b, c, dd⟩ := md
    cases dd <;> exact ⟨_, rfl⟩
  have hmd : parseIdlMetadata (.obj mxs) = .ok md := by
    rw [← hmxs]; exact rt_metadata md
  have hixs := parseList_ofList_map ixs fun ix hx => rt_instruction ix (hix ix hx)
  have haccs := parseList_ofList_map accts fun r hr => rt_accountRef r (hacc r hr)
  have hevs := parseList_ofList_map evs fun r hr => rt_eventRef r (hev r hr)
  have htys := parseList_ofList_map tys fun td ht => rt_typeDef td (hty td ht)
  have herrs := parseList_ofList_map errs fun e he => rt_error e (herr e he)
  simp [serializeIdl, parseIdl, Json.mkObj, JsonFields.ofList, getStr, getJson,
    getList, getListD, JsonFields.lookup, hmxs, hmd, hixs, haccs, hevs, htys, herrs]

theorem allSingle_legacySingleItems (xs : List LegacyInstructionAccount) :
    allSingle (legacySingleItems xs) = true := by
  induction xs with
  | nil => rfl
  | cons a rest ih => simpa [legacySingleItems, allSingle] using ih

theorem converted_roundTrips (L : LegacyIdl) (h : goodLegacy L = true) :
    idlRoundTrips (legacyIdlToIdl L) = true := by
  simp only [goodLegacy, Bool.and_eq_true, List.all_eq_true,
    decide_eq_true_eq] at h
  obtain ⟨hty, herr⟩ := h
  simp only [idlRoundTrips, legacyIdlToIdl, Bool.and_eq_true, List.all_eq_true,
    decide_eq_true_eq]
  refine ⟨⟨⟨⟨?_, ?_⟩, ?_⟩, ?_⟩, ?_⟩
  · intro ix hix
    rcases List.mem_map.mp hix with ⟨li, _, rfl⟩
    simp [legacyInstructionToIdl, instructionGood, allSingle_legacySingleItems]
  · intro r hr
    rcases List.mem_map.mp hr with ⟨a, _, rfl⟩
    simp [refBytesGood]
  · intro r hr
    rcases List.mem_map.mp hr with ⟨e, _, rfl⟩
    simp [refBytesGood]
  · intro td htd
    rcases List.mem_map.mp htd with ⟨ltd, hmem, rfl⟩
    have hgood := hty ltd hmem
    obtain ⟨lnm, ldocs, lty⟩ := ltd
    cases lty with
    | Struct fs => simp [legacyTypeDefToIdl, legacyTypeDefTyToIdl, typeDefGood]
    | Enum vs =>
      simp only [legacyTypeDefGood] at hgood
      simp only [legacyTypeDefToIdl, legacyTypeDefTyToIdl, typeDefGood,
        List.all_eq_true] at hgood ⊢
      intro v hv
      rcases List.mem_map.mp hv with ⟨lv, hlv, rfl⟩
      have hvg := hgood lv hlv
      obtain ⟨vnm, vfields⟩ := lv
      cases vfields with
      | none => simp [legacyEnumVariantToIdl, variantGood]
      | some fs =>
        simp only [legacyVariantGood] at hvg
        cases fs with
        | nil => simp at hvg
        | cons f rest =>
          simp [legacyEnumVariantToIdl, variantGood, namedNonempty]
  · intro e he
    exact herr e he

/-! ## Claim theorems -/

/-- C1: the claimed dialect detection does not exist in the code.  All three
ingestion paths invoke the same derived canonical deserializer
(`serde_json::from_slice::<Idl>` / `from_str::<Idl>`; `fetcher.rs` lines
152, 179, 234); the legacy module is declared but never called.  A document
with a top-level string `address` parses canonically, but a document with a
top-level `name` and no `address` fails with a missing-field parse error
instead of being parsed as legacy and converted — even though the legacy
deserializer and conversion present in `legacy.rs` would accept it. -/
theorem c1_dialect_detection_missing :
    parseIdl canonicalJsonSample = .ok
      { address := "Prog1111"
        metadata := { name := "foo", version := "1.0.0", spec := "0.1.0", description := none }
        instructions := []
        accounts := []
        types := []
        events := []
        errors := [] } ∧
    parseIdl c4Json = .error "missing field address" ∧
    parseLegacyIdl c4Json = .ok c4Legacy ∧
    legacyIdlToIdl c4Legacy = c4Canonical := ⟨rfl, rfl, rfl, rfl⟩

/-- C2: for every raw account byte sequence, the envelope decoder checks, in
order: total length below 44 gives the EnvelopeTooSmall error; a zero length
field gives the EmptyPayload error; a declared length exceeding the remaining
bytes gives PayloadTruncated carrying expected = the length field and
actual = total length minus 44; otherwise the slice passed onward is exactly
bytes 44 .. 44 + length, whose length equals the declared length. -/
theorem c2_envelope_decoder (data : List Nat) :
    (data.length < 44 → decodeEnvelope data = .error envelopeTooSmall) ∧
    (44 ≤ data.length → dataLenOf data = 0 →
      decodeEnvelope data = .error emptyPayload) ∧
    (44 ≤ data.length → 0 < dataLenOf data →
      data.length < 44 + dataLenOf data →
      decodeEnvelope data =
        .error (payloadTruncated (dataLenOf data) (data.length - 44))) ∧
    (44 ≤ data.length → 0 < dataLenOf data →
      44 + dataLenOf data ≤ data.length →
      decodeEnvelope data = .ok ((data.drop 44).take (dataLenOf data)) ∧
        ((data.drop 44).take (dataLenOf data)).length = dataLenOf data) := by
  refine ⟨?_, ?_, ?_, ?_⟩
  · intro h
    simp [decodeEnvelope, headerSize, h]
  · intro h h0
    have hn : ¬ data.length < 44 := by omega
    simp [decodeEnvelope, headerSize, hn, h0]
  · intro h h0 htr
    have hn : ¬ data.length < 44 := by omega
    have h0n : ¬ dataLenOf data = 0 := by omega
    simp [decodeEnvelope, headerSize, hn, h0n, htr]
  · intro h h0 hfit
    have hn : ¬ data.length < 44 := by omega
    have h0n : ¬ dataLenOf data = 0 := by omega
    have hfn : ¬ data.length < 44 + dataLenOf data := by omega
    constructor
    · simp [decodeEnvelope, headerSize, hn, h0n, hfn]
    · simp only [List.length_take, List.length_drop]
      omega

/-- Witness for C2: all four branches exercised on concrete inputs — a
43-byte input, the spec's 44-zero-bytes scenario, a header declaring 5
payload bytes with none present, and a header declaring 2 bytes followed by
exactly those 2 bytes. -/
theorem c2_envelope_decoder_witness :
    (decodeEnvelope (List.replicate 43 0) = .error envelopeTooSmall) ∧
    (decodeEnvelope (List.replicate 44 0) = .error emptyPayload) ∧
    (decodeEnvelope (List.replicate 40 0 ++ [5, 0, 0, 0]) =
      .error (payloadTruncated 5 0)) ∧
    (decodeEnvelope (List.replicate 40 0 ++ [2, 0, 0, 0] ++ [9, 7]) =
      .ok [9, 7]) :=
  ⟨(c2_envelope_decoder (List.replicate 43 0)).1 (by decide),
   (c2_envelope_decoder (List.replicate 44 0)).2.1 (by decide) (by decide),
   (c2_envelope_decoder (List.replicate 40 0 ++ [5, 0, 0, 0])).2.2.1
     (by decide) (by decide) (by decide),
   ((c2_envelope_decoder (List.replicate 40 0 ++ [2, 0, 0, 0] ++ [9, 7])).2.2.2
     (by decide) (by decide) (by decide)).1⟩

/-- C3: the legacy-to-canonical conversion turns each full legacy account
type body into a root-level AccountRef with empty discriminator while the
bodies merge into the unified `types` list together with the legacy `types`
entries; legacy events keep only their name (empty discriminator) at root
and their field bodies are dropped — erasing every event body from the
input leaves the converted document unchanged. -/
theorem c3_legacy_accounts_types_events (L : LegacyIdl) :
    (legacyIdlToIdl L).accounts =
      (L.accounts.map fun a => { name := a.name, discriminator := [] }) ∧
    (legacyIdlToIdl L).types = (L.accounts ++ L.types).map legacyTypeDefToIdl ∧
    (legacyIdlToIdl L).events =
      (L.events.map fun e => { name := e.name, discriminator := [] }) ∧
    legacyIdlToIdl { L with events := L.events.map fun e => { e with fields := [] } } =
      legacyIdlToIdl L := by
  refine ⟨rfl, rfl, rfl, ?_⟩
  simp [legacyIdlToIdl, List.map_map, Function.comp]

/-- C4: the scenario's legacy input parses to `c4Legacy` and converts to a
document with metadata name `foo`, spec `legacy`, empty address, and one
instruction `initialize` holding one `Single` account `signer` with
writable and signer set and optional clear; in general the legacy
`isMut`/`isSigner`/`isOptional` flags map one-to-one to
`writable`/`signer`/`optional` and the converted account's address and pda
are left unset. -/
theorem c4_legacy_scenario (a : LegacyInstructionAccount) :
    parseLegacyIdl c4Json = .ok c4Legacy ∧
    legacyIdlToIdl c4Legacy = c4Canonical ∧
    (legacyInstructionAccountToIdl a).writable = a.is_mut ∧
    (legacyInstructionAccountToIdl a).signer = a.is_signer ∧
    (legacyInstructionAccountToIdl a).optional = a.is_optional ∧
    (legacyInstructionAccountToIdl a).address = none ∧
    (legacyInstructionAccountToIdl a).pda = none :=
  ⟨rfl, rfl, rfl, rfl, rfl, rfl, rfl⟩

/-- C5 counterexample: the claimed stability fails on the legacy document
with an enum variant whose fields list is present but empty — the direct
conversion carries `Named []`, but re-parsing the re-serialized document
yields `Tuple []` (the untagged deserializer tries `Tuple` first on the
empty array), so the pipeline differs from the one-step conversion. -/
theorem c5_counterexample :
    parseIdl (serializeIdl (legacyIdlToIdl legacyEmptyVariantDoc)) ≠
      .ok (legacyIdlToIdl legacyEmptyVariantDoc) ∧
    parseIdl (serializeIdl (legacyIdlToIdl legacyEmptyVariantDoc)) =
      .ok { legacyIdlToIdl legacyEmptyVariantDoc with
            types := [{ name := "State",
                        ty := .Enum [{ name := "Empty", fields := some (.Tuple []) }] }] } :=
  ⟨by
    intro hcontra
    have h4 := congrArg
      (fun r : Except String Idl =>
        match r with
        | .ok d => d.types
        | .error _ => []) hcontra
    simp only [] at h4
    exact absurd h4 (by decide), by rfl⟩

/-- C5 (amended): for every legacy document whose enum-variant fields lists
are nonempty whenever present (and whose error codes fit in a u32, as
Rust's types guarantee), the pipeline convert-to-canonical, re-serialize
(spec-modelled serializer), re-parse (the code's canonical deserializer)
returns exactly the one-step conversion. -/
theorem c5_roundtrip_stable (L : LegacyIdl) (h : goodLegacy L = true) :
    parseIdl (serializeIdl (legacyIdlToIdl L)) = .ok (legacyIdlToIdl L) :=
  rt_idl (legacyIdlToIdl L) (converted_roundTrips L h)

/-- Witness for C5: the scenario document satisfies the side condition and
round trips. -/
theorem c5_roundtrip_stable_witness :
    goodLegacy c4Legacy = true ∧
    parseIdl (serializeIdl (legacyIdlToIdl c4Legacy)) = .ok (legacyIdlToIdl c4Legacy) :=
  ⟨rfl, c5_roundtrip_stable c4Legacy rfl⟩

/-- C7: the legacy type conversion renames the primitive `"publicKey"` to
`"pubkey"` and passes every other primitive string through unchanged, and
maps Vec/Option/Array/Defined one-to-one (recursively, preserving array
sizes and reference names) to the canonical constructors. -/
theorem c7_type_conversion (s : String) (t : LegacyType) (n : Nat) (nm : String) :
    legacyTypeToIdl (.Primitive s) =
      .Primitive (if s = "publicKey" then "pubkey" else s) ∧
    legacyTypeToIdl (.Complex (.Vec t)) = .Complex (.Vec (legacyTypeToIdl t)) ∧
    legacyTypeToIdl (.Complex (.Option t)) = .Complex (.Option (legacyTypeToIdl t)) ∧
    legacyTypeToIdl (.Complex (.Array t n)) = .Complex (.Array (legacyTypeToIdl t) n) ∧
    legacyTypeToIdl (.Complex (.Defined nm)) = .Complex (.Defined nm) := by
  refine ⟨?_, rfl, rfl, rfl, rfl⟩
  by_cases h : s = "publicKey" <;> simp [legacyTypeToIdl, h]

/-- C8 counterexample: the legacy conversion produces a document whose enum
variant has present but empty fields (`Named []`), so the claimed
present-implies-nonempty invariant fails on a produced document. -/
theorem c8_counterexample :
    idlVariantsOk (legacyIdlToIdl legacyEmptyVariantDoc) = false ∧
    (legacyEnumVariantToIdl { name := "Empty", fields := some [] }).fields =
      some (.Named []) := ⟨rfl, rfl⟩

/-- C8 (amended): a converted enum variant's fields are `Named` exactly
when the legacy fields are present (never `Tuple`, never both), but the
list may be empty when present; on the canonical path an explicit empty
`fields` array deserializes as an (empty) `Tuple`. -/
theorem c8_enum_fields_amended (v : LegacyEnumVariant) :
    (legacyEnumVariantToIdl v).fields =
      v.fields.map (fun fs => IdlEnumFields.Named (fs.map legacyFieldToIdl)) ∧
    parseIdlEnumFields (.mkArr []) = .ok (.Tuple []) := ⟨rfl, rfl⟩

/-- C9: display formatting of canonical types is compositional: the complex
type written `vec` of `u64` parses to `List(u64)` and renders as
`Vec<u64>`, and `Optional(List(u8))` renders as `Option<Vec<u8>>`. -/
theorem c9_format_type :
    parseIdlType (.mkObj [("vec", .str "u64")]) =
      .ok (.Complex (.Vec (.Primitive "u64"))) ∧
    format_type (.Complex (.Vec (.Primitive "u64"))) = "Vec<u64>" ∧
    format_type (.Complex (.Option (.Complex (.Vec (.Primitive "u8"))))) =
      "Option<Vec<u8>>" := ⟨rfl, rfl, rfl⟩

/-- C10: every document produced by the legacy conversion has only empty
instruction discriminators and only `Single` account items (a `Single`
contains no nested items, so no `Group` occurs at any nesting depth). -/
theorem c10_legacy_single_accounts (L : LegacyIdl) :
    ((legacyIdlToIdl L).instructions.all fun ix =>
      ix.discriminator.isEmpty && allSingle ix.accounts) = true := by
  simp only [legacyIdlToIdl, List.all_eq_true]
  intro ix hix
  rcases List.mem_map.mp hix with ⟨li, _, rfl⟩
  simp [legacyInstructionToIdl, allSingle_legacySingleItems]

end Periscope
